import Mathlib

/-
  Verification development for the rdis server (src/main.rs, src/rdis/{parser,protocol,engine}.rs).

  Shallow embedding conventions:
  * Byte strings are `List Nat` (each element an octet value).
  * Machine integers are modelled as `Nat`/`Int` with explicit `% 2^64` wraps where the
    Rust code performs wrapping `u64`/`i64` arithmetic (release-build semantics).
  * The nom combinators used by parser.rs are all from the `complete` family, so they
    report `Err::Error` (never `Err::Incomplete`) on truncated input; a parser here is a
    function `List Nat → Option (List Nat × α)` where `none` is nom's error case and the
    first component of a success is the unconsumed remainder.
  * Fallible operations (including library panics such as `BTreeMap::range` on an
    inverted range) return `Option`, with `none` marking the failure.
-/

namespace Rdis

/-- UTF-8/ASCII bytes of a string literal (all literals used here are ASCII). -/
def bytesOf (s : String) : List Nat := s.data.map Char.toNat

def u64Mod : Nat := 18446744073709551616

def i64Half : Int := 9223372036854775808

/-- Rust `u64 as i64` (two's-complement reinterpretation). -/
def asI64 (w : Nat) : Int := if w < 2 ^ 63 then (w : Int) else (w : Int) - 2 ^ 64

/-- Wrap an integer into `i64` range, modelling release-mode overflow of `i64` ops. -/
def wrapI64 (x : Int) : Int := (x + 2 ^ 63) % 2 ^ 64 - 2 ^ 63

/-- protocol.rs `enum RESP`. `Error`'s two `String` fields are kept as byte lists. -/
inductive RESP where
  | SimpleString (s : List Nat)
  | Error (kind msg : List Nat)
  | Integer (i : Int)
  | BulkString (s : List Nat)
  | Array (elems : List RESP)
  | Null

def isDigit (b : Nat) : Bool := 48 ≤ b && b ≤ 57

def isAlnum (b : Nat) : Bool := (48 ≤ b && b ≤ 57) || (65 ≤ b && b ≤ 90) || (97 ≤ b && b ≤ 122)

/-- nom `space1` character class: space or tab. -/
def isSpaceTab (b : Nat) : Bool := b == 32 || b == 9

/-- nom `char(c)` (complete): consume exactly byte `c`. -/
def pchar (c : Nat) : List Nat → Option (List Nat)
  | [] => none
  | b :: rest => if b = c then some rest else none

/-- Shared shape of nom `digit1`/`alphanumeric1`/`space1`: longest nonempty prefix
satisfying `p`; error if the first byte fails `p`. Returns (remainder, token). -/
def takeWhile1 (p : Nat → Bool) (input : List Nat) : Option (List Nat × List Nat) :=
  let tok := input.takeWhile p
  if tok.isEmpty then none else some (input.dropWhile p, tok)

/-- nom `crlf`: consume the two bytes CR LF. -/
def pcrlf : List Nat → Option (List Nat)
  | 13 :: 10 :: rest => some rest
  | _ => none

/-- nom `take_until("\r\n")` (complete): bytes before the first CR LF; error if absent.
The remainder still starts with the CR LF. -/
def takeUntilCRLF : List Nat → Option (List Nat × List Nat)
  | 13 :: 10 :: rest => some (13 :: 10 :: rest, [])
  | b :: rest =>
      match takeUntilCRLF rest with
      | none => none
      | some (rem, tok) => some (rem, b :: tok)
  | [] => none

/-- nom `take(n)` (complete): exactly `n` bytes or error. -/
def ptake (n : Nat) (input : List Nat) : Option (List Nat × List Nat) :=
  if n ≤ input.length then some (input.drop n, input.take n) else none

/-- parser.rs `read_integer_ascii`: positional digit accumulation in `u64` arithmetic.
The powers, products and sums all wrap modulo `2^64`, so the net result is the digit
value modulo `2^64` (Horner form below is congruent to the source's power sum). -/
def readIntegerAscii (bytes : List Nat) : Nat :=
  bytes.foldl (fun acc b => (acc * 10 + ((b + u64Mod) - 48)) % u64Mod) 0

/-- parser.rs `read_positive_decimal`: `digit1` then `read_integer_ascii`. -/
def read_positive_decimal (input : List Nat) : Option (List Nat × Nat) :=
  (takeWhile1 isDigit input).map fun p => (p.1, readIntegerAscii p.2)

/-- parser.rs `read_decimal`: optional leading `-`, then a positive decimal; the value
is `int as i64`, negated (with `i64` wrap) when the minus sign is present. -/
def read_decimal (input : List Nat) : Option (List Nat × Int) :=
  match pchar 45 input with
  | some rest => (read_positive_decimal rest).map fun p => (p.1, wrapI64 (-(asI64 p.2)))
  | none => (read_positive_decimal input).map fun p => (p.1, asI64 p.2)

/-- parser.rs `read_bulk`: `$`, signed length, CRLF; a strictly positive length is
followed by that many raw bytes and CRLF, any other length yields `Null` at once. -/
def read_bulk (input : List Nat) : Option (List Nat × RESP) :=
  (pchar 36 input).bind fun r1 =>
  (read_decimal r1).bind fun p =>
  (pcrlf p.1).bind fun r3 =>
  if 0 < p.2 then
    (ptake p.2.toNat r3).bind fun q =>
    (pcrlf q.1).map fun r5 => (r5, RESP.BulkString q.2)
  else
    some (r3, RESP.Null)

/-- parser.rs `read_simple`: `+`, bytes up to CRLF. -/
def read_simple (input : List Nat) : Option (List Nat × RESP) :=
  (pchar 43 input).bind fun r1 =>
  (takeUntilCRLF r1).bind fun p =>
  (pcrlf p.1).map fun r3 => (r3, RESP.SimpleString p.2)

/-- parser.rs `read_error`: `-`, alphanumeric kind, one-or-more spaces, message up to CRLF. -/
def read_error (input : List Nat) : Option (List Nat × RESP) :=
  (pchar 45 input).bind fun r1 =>
  (takeWhile1 isAlnum r1).bind fun p =>
  (takeWhile1 isSpaceTab p.1).bind fun q =>
  (takeUntilCRLF q.1).bind fun w =>
  (pcrlf w.1).map fun r5 => (r5, RESP.Error p.2 w.2)

/-- parser.rs `read_integer`: `:`, signed decimal, CRLF. -/
def read_integer (input : List Nat) : Option (List Nat × RESP) :=
  (pchar 58 input).bind fun r1 =>
  (read_decimal r1).bind fun p =>
  (pcrlf p.1).map fun r3 => (r3, RESP.Integer p.2)

/-- parser.rs `read_primitive`: `alt((read_integer, read_simple, read_bulk, read_error))`. -/
def read_primitive (input : List Nat) : Option (List Nat × RESP) :=
  match read_integer input with
  | some r => some r
  | none =>
    match read_simple input with
    | some r => some r
    | none =>
      match read_bulk input with
      | some r => some r
      | none => read_error input

/-- nom `count(read_primitive, n)`: exactly `n` primitives in sequence. -/
def pcount : Nat → List Nat → Option (List Nat × List RESP)
  | 0, input => some (input, [])
  | m + 1, input =>
      (read_primitive input).bind fun p =>
      (pcount m p.1).map fun q => (q.1, p.2 :: q.2)

/-- parser.rs `read_array`: `*`, non-negative count, CRLF, that many primitives. -/
def read_array (input : List Nat) : Option (List Nat × RESP) :=
  (pchar 42 input).bind fun r1 =>
  (read_positive_decimal r1).bind fun p =>
  (pcrlf p.1).bind fun r3 =>
  (pcount p.2 r3).map fun q => (q.1, RESP.Array q.2)

/-- Tail of nom `separated_list1(space1, alphanumeric1)`: repeatedly a separator then a
token, backtracking (separator left unconsumed) when either fails. Each iteration
consumes at least two bytes, so fuel equal to the input length is enough; the fuel
argument only serves Lean's termination checker. -/
def inlineLoop : Nat → List Nat → List Nat × List (List Nat)
  | 0, input => (input, [])
  | fuel + 1, input =>
      match takeWhile1 isSpaceTab input with
      | none => (input, [])
      | some p =>
        match takeWhile1 isAlnum p.1 with
        | none => (input, [])
        | some q =>
          let r := inlineLoop fuel q.1
          (r.1, q.2 :: r.2)

/-- parser.rs `read_inline_commands`: space-separated alphanumeric tokens, CRLF; the
result is an `Array` of `SimpleString` tokens. -/
def read_inline_commands (input : List Nat) : Option (List Nat × RESP) :=
  (takeWhile1 isAlnum input).bind fun p =>
  let r := inlineLoop input.length p.1
  (pcrlf r.1).map fun r3 => (r3, RESP.Array ((p.2 :: r.2).map RESP.SimpleString))

/-- parser.rs `read`: `alt` over array, inline commands, integer, simple, bulk, error. -/
def read (input : List Nat) : Option (List Nat × RESP) :=
  match read_array input with
  | some r => some r
  | none =>
    match read_inline_commands input with
    | some r => some r
    | none =>
      match read_integer input with
      | some r => some r
      | none =>
        match read_simple input with
        | some r => some r
        | none =>
          match read_bulk input with
          | some r => some r
          | none => read_error input

/-! ## Encoder (protocol.rs `RESP::write_async`)

The buffered writer is modelled by the produced byte list; flushing has no effect on
the bytes and is omitted. -/

def crlfBytes : List Nat := [13, 10]

/-- Decimal digit bytes of `n`, most significant first, as produced by Rust's
`to_string` on unsigned values. The fuel (30) exceeds the digit count of any `u64`
or `usize` value and only serves the termination checker. -/
def natDigitsGo : Nat → Nat → List Nat → List Nat
  | 0, _, acc => acc
  | fuel + 1, n, acc =>
      if n < 10 then (48 + n) :: acc else natDigitsGo fuel (n / 10) ((48 + n % 10) :: acc)

def natDigits (n : Nat) : List Nat := natDigitsGo 30 n []

/-- Rust `i64::to_string`. -/
def intToBytes (i : Int) : List Nat :=
  if i < 0 then 45 :: natDigits i.natAbs else natDigits i.toNat

mutual

/-- protocol.rs `RESP::write_async`, as the byte sequence appended to the writer.
Note the `Error` arm: the source writes the kind and the message back to back with
no separator between them. -/
def RESP.write_async : RESP → List Nat
  | .SimpleString s => 43 :: (s ++ crlfBytes)
  | .Error kind msg => 45 :: (kind ++ msg ++ crlfBytes)
  | .Integer i => 58 :: (intToBytes i ++ crlfBytes)
  | .BulkString s => 36 :: (natDigits s.length ++ crlfBytes ++ s ++ crlfBytes)
  | .Array v => 42 :: (natDigits v.length ++ crlfBytes ++ writeElems v)
  | .Null => [36, 45, 49, 13, 10]

/-- The `Array` arm's element loop: each element serialized in order, unflushed. -/
def writeElems : List RESP → List Nat
  | [] => []
  | r :: rs => RESP.write_async r ++ writeElems rs

end

/-! ## Engine data (engine.rs `RedisData`)

`HashMap`, `BTreeMap` and `HashSet` are modelled as association lists / lists with
the library's key-uniqueness behaviour reflected by the operations (insert replaces,
remove deletes the key's entry). -/

/-- Association-list lookup (`HashMap::get` / `BTreeMap::get_mut`). -/
def assocGet {κ α : Type} [DecidableEq κ] : List (κ × α) → κ → Option α
  | [], _ => none
  | e :: rest, k => if e.1 = k then some e.2 else assocGet rest k

/-- Association-list insert-or-replace (`HashMap::insert` / map-entry update). -/
def assocSet {κ α : Type} [DecidableEq κ] : List (κ × α) → κ → α → List (κ × α)
  | [], k, v => [(k, v)]
  | e :: rest, k, v => if e.1 = k then (k, v) :: rest else e :: assocSet rest k v

/-- Association-list removal (`HashMap::remove` / `BTreeMap::remove`). -/
def assocRemove {κ α : Type} [DecidableEq κ] : List (κ × α) → κ → List (κ × α)
  | [], _ => []
  | e :: rest, k => if e.1 = k then assocRemove rest k else e :: assocRemove rest k

abbrev Bytes := List Nat

/-- engine.rs `struct RedisData`. The eviction index maps an instant to the set of
keys scheduled at that instant (the set kept as a duplicate-free list). -/
structure RedisData where
  single_map : List (Bytes × Bytes)
  list_map : List (Bytes × List Bytes)
  eviction : List (Nat × List Bytes)
  last_evicted_t : Nat

/-- engine.rs `RedisData::new` (capacities have no observable effect). -/
def emptyRedisData : RedisData := ⟨[], [], [], 0⟩

/-- One iteration of the removal loop in `evict_if_needed`: `eviction.remove(&k)` and,
when the instant was present, removal of each referenced key from the string store. -/
def removeInstant (st : RedisData) (inst : Nat) : RedisData :=
  match assocGet st.eviction inst with
  | none => st
  | some keys =>
      { st with
        eviction := assocRemove st.eviction inst,
        single_map := keys.foldl (fun m k0 => assocRemove m k0) st.single_map }

/-- engine.rs `RedisData::evict_if_needed`. The source queries
`eviction.range(last_evicted_t..t)`; `BTreeMap::range` panics when the range's start
exceeds its end, which is modelled by the `none` result. Otherwise the instants in
`[last_evicted_t, t)` are collected, the watermark is set to `t`, and each collected
instant's entry is removed together with its keys from the string store. -/
def evict_if_needed (d : RedisData) (t : Nat) : Option RedisData :=
  if t < d.last_evicted_t then none
  else
    let to_remove :=
      (d.eviction.filter fun e => decide (d.last_evicted_t ≤ e.1) && decide (e.1 < t)).map Prod.fst
    some (to_remove.foldl removeInstant { d with last_evicted_t := t })

/-- engine.rs `RedisData::insert_eviction` (`HashSet::insert`: no duplicates). -/
def insert_eviction (d : RedisData) (k : Bytes) (t : Nat) : RedisData :=
  match assocGet d.eviction t with
  | some l => { d with eviction := assocSet d.eviction t (if k ∈ l then l else k :: l) }
  | none => { d with eviction := assocSet d.eviction t [k] }

/-- engine.rs `RedisData::set`. -/
def RedisData.set (d : RedisData) (k v : Bytes) (evict_at : Option Nat) : RedisData :=
  let d1 := { d with single_map := assocSet d.single_map k v }
  match evict_at with
  | some t => insert_eviction d1 k t
  | none => d1

/-- engine.rs `RedisData::get`: evict first, then look the key up. -/
def RedisData.get (d : RedisData) (k : Bytes) (t : Nat) : Option (RedisData × Option Bytes) :=
  (evict_if_needed d t).map fun d1 => (d1, assocGet d1.single_map k)

/-- Sign handling of Rust `str::parse::<i64>`: an optional leading `-` or `+`. -/
def parseSign : Bytes → Bool × Bytes
  | 45 :: rest => (true, rest)
  | 43 :: rest => (false, rest)
  | bs => (false, bs)

/-- Exact decimal value of a digit string (no wrapping: Rust's checked parse). -/
def digitsVal (ds : List Nat) : Nat := ds.foldl (fun a b => a * 10 + (b - 48)) 0

/-- Rust `str::parse::<i64>`: optional sign, at least one ASCII digit, nothing else,
value within `i64` range (overflow is a parse error, not a wrap). -/
def parseI64 (bs : Bytes) : Option Int :=
  if (parseSign bs).2.isEmpty then none
  else if !((parseSign bs).2.all isDigit) then none
  else if (parseSign bs).1 then
    (if digitsVal (parseSign bs).2 ≤ 2 ^ 63 then some (-(digitsVal (parseSign bs).2 : Int))
     else none)
  else
    (if digitsVal (parseSign bs).2 ≤ 2 ^ 63 - 1 then some ((digitsVal (parseSign bs).2 : Int))
     else none)

/-- Stand-in for the `err.to_string()` text carried by `RedisData::incr`'s error
(Rust's `FromUtf8Error`/`ParseIntError` description); the theorems below only ever
inspect the error kind, never this message. -/
def incrErrMsg : Bytes := []

/-- engine.rs `RedisData::incr`: evict first; absent key is `Ok(None)`; a value that
fails UTF-8 decoding or `i64` parsing is an error; otherwise the value plus one
(release-mode `i64` wrap) is returned without being written back. -/
def RedisData.incr (d : RedisData) (k : Bytes) (t : Nat) :
    Option (RedisData × Except Bytes (Option Int)) :=
  (evict_if_needed d t).map fun d1 =>
    match assocGet d1.single_map k with
    | none => (d1, Except.ok none)
    | some raw =>
      match parseI64 raw with
      | none => (d1, Except.error incrErrMsg)
      | some i => (d1, Except.ok (some (wrapI64 (i + 1))))

/-- engine.rs `RedisData::l_push`: optional eviction attachment, then push at the
front of the key's deque, creating the deque when absent. -/
def RedisData.l_push (d : RedisData) (k v : Bytes) (evict_at : Option Nat) : RedisData :=
  let d1 := match evict_at with | some t => insert_eviction d k t | none => d
  let cur := (assocGet d1.list_map k).getD []
  { d1 with list_map := assocSet d1.list_map k (v :: cur) }

/-- engine.rs `RedisData::r_push`: as `l_push`, pushing at the back. -/
def RedisData.r_push (d : RedisData) (k v : Bytes) (evict_at : Option Nat) : RedisData :=
  let d1 := match evict_at with | some t => insert_eviction d k t | none => d
  let cur := (assocGet d1.list_map k).getD []
  { d1 with list_map := assocSet d1.list_map k (cur ++ [v]) }

/-- engine.rs `RedisData::l_pop`: pop the front of the key's deque; the map entry is
never removed, an absent or empty deque yields `None`. -/
def RedisData.l_pop (d : RedisData) (k : Bytes) : RedisData × Option Bytes :=
  match assocGet d.list_map k with
  | none => (d, none)
  | some [] => (d, none)
  | some (v :: rest) => ({ d with list_map := assocSet d.list_map k rest }, some v)

/-- engine.rs `RedisData::r_pop`: pop the back of the key's deque. -/
def RedisData.r_pop (d : RedisData) (k : Bytes) : RedisData × Option Bytes :=
  match assocGet d.list_map k with
  | none => (d, none)
  | some l =>
    match l.getLast? with
    | none => (d, none)
    | some v => ({ d with list_map := assocSet d.list_map k l.dropLast }, some v)

/-! ## Request handling (engine.rs `RedisEngine::handle_request`)

The source matches the command array's slice against patterns whose elements are all
`BulkString`; any shape not matched (including arrays whose tokens are
`SimpleString`, as produced by the inline-command parser) falls to the catch-all and
yields `error_resp()`. A `none` result models a panic reached through
`evict_if_needed`. -/

def errorResp : RESP := RESP.Error (bytesOf "Error") (bytesOf "too many arguments")

def okResp : RESP := RESP.SimpleString (bytesOf "OK")

/-- The `[BulkString(single)]` arm of `handle_request`. -/
def handle1 (d : RedisData) (c1 : RESP) : Option (RedisData × RESP) :=
  match c1 with
  | RESP.BulkString single =>
      if single = bytesOf "PING" then some (d, RESP.SimpleString (bytesOf "PONG"))
      else if single = bytesOf "COMMAND" then some (d, okResp)
      else some (d, errorResp)
  | _ => some (d, errorResp)

/-- The `[BulkString(cmd), BulkString(k)]` arm of `handle_request`. -/
def handle2 (d : RedisData) (c1 c2 : RESP) (t : Nat) : Option (RedisData × RESP) :=
  match c1, c2 with
  | RESP.BulkString cmd, RESP.BulkString k =>
      if cmd = bytesOf "GET" then
        (d.get k t).map fun p =>
          (p.1, match p.2 with | none => RESP.Null | some bs => RESP.BulkString bs)
      else if cmd = bytesOf "INCR" then
        (d.incr k t).map fun p =>
          match p.2 with
          | Except.ok none => (p.1, RESP.Null)
          | Except.ok (some i) => (p.1, RESP.SimpleString (intToBytes i))
          | Except.error msg => (p.1, RESP.Error (bytesOf "WRONG_TYPE") msg)
      else if cmd = bytesOf "LPOP" then
        let p := d.l_pop k
        some (p.1, match p.2 with | none => RESP.Null | some bs => RESP.BulkString bs)
      else if cmd = bytesOf "RPOP" then
        let p := d.r_pop k
        some (p.1, match p.2 with | none => RESP.Null | some bs => RESP.BulkString bs)
      else some (d, errorResp)
  | _, _ => some (d, errorResp)

/-- The `[BulkString(cmd), BulkString(k), BulkString(v)]` arm of `handle_request`. -/
def handle3 (d : RedisData) (c1 c2 c3 : RESP) : Option (RedisData × RESP) :=
  match c1, c2, c3 with
  | RESP.BulkString cmd, RESP.BulkString k, RESP.BulkString v =>
      if cmd = bytesOf "SET" then some (d.set k v none, okResp)
      else if cmd = bytesOf "LPUSH" then some (d.l_push k v none, okResp)
      else if cmd = bytesOf "RPUSH" then some (d.r_push k v none, okResp)
      else some (d, errorResp)
  | _, _, _ => some (d, errorResp)

/-- The slice match of `handle_request` on a decoded `Array`'s elements. -/
def handleArray (d : RedisData) (cmds : List RESP) (t : Nat) : Option (RedisData × RESP) :=
  match cmds with
  | [] => some (d, RESP.Error (bytesOf "todo") (bytesOf "empty command"))
  | [c1] => handle1 d c1
  | [c1, c2] => handle2 d c1 c2 t
  | [c1, c2, c3] => handle3 d c1 c2 c3
  | _ => some (d, errorResp)

/-- engine.rs `RedisEngine::handle_request`: a non-`Array` request is wrapped into a
one-element array and re-dispatched. -/
def handle_request (d : RedisData) (req : RESP) (t : Nat) : Option (RedisData × RESP) :=
  match req with
  | RESP.Array cmds => handleArray d cmds t
  | other => handleArray d [other] t

/-! ## Request bundles and the engine loop -/

/-- protocol.rs `enum ClientReq`. -/
inductive ClientReq where
  | Single (r : RESP)
  | Pipeline (rs : List RESP)

/-- The `ClientReq::Pipeline` arm of `start_loop`: every contained command handled in
order against the evolving store, all at the single timestamp `t`. -/
def handlePipeline (d : RedisData) (rs : List RESP) (t : Nat) :
    Option (RedisData × List RESP) :=
  match rs with
  | [] => some (d, [])
  | r :: rest =>
      (handle_request d r t).bind fun p =>
      (handlePipeline p.1 rest t).map fun q => (q.1, p.2 :: q.2)

/-- Outcome of running the engine loop for a bounded number of iterations. -/
inductive LoopOutcome where
  | running (d : RedisData) (sent : List ClientReq)
  | exited (d : RedisData) (sent : List ClientReq)
  | panicked

def LoopOutcome.isExited : LoopOutcome → Bool
  | LoopOutcome.exited _ _ => true
  | _ => false

/-- engine.rs `RedisEngine::start_loop`. Messages carry the per-iteration timestamp
(the source calls `current_time()` once per received bundle); replies sent through
the oneshot channels are accumulated most recent first in `sent`. When the channel
is closed (`recv` returns `None` — here: the message list is exhausted) the source
only logs a warning and immediately loops again: there is no `break`, so the loop
keeps polling and the `exited` outcome is never produced. `fuel` bounds the number
of iterations; `panicked` models a panic inside `handle_request`. -/
def start_loop : Nat → RedisData → List (Nat × ClientReq) → List ClientReq → LoopOutcome
  | 0, d, _, sent => LoopOutcome.running d sent
  | fuel + 1, d, msgs, sent =>
      match msgs with
      | (t, ClientReq.Single r) :: rest =>
          match handle_request d r t with
          | none => LoopOutcome.panicked
          | some p => start_loop fuel p.1 rest (ClientReq.Single p.2 :: sent)
      | (t, ClientReq.Pipeline rs) :: rest =>
          match handlePipeline d rs t with
          | none => LoopOutcome.panicked
          | some p => start_loop fuel p.1 rest (ClientReq.Pipeline p.2 :: sent)
      | [] => start_loop fuel d [] sent

/-! ## The connection session's read loop (protocol.rs `RedisCmd::read_async`)

The socket is modelled by the list of byte chunks successive `read_buf` calls
deliver; an exhausted list is end-of-stream (`read_buf` returns 0). `parse_frame`
maps a parser success to a consumed frame and anything else to the "fatal" error
(the nom `complete` combinators never report `Incomplete`); `read_async` catches
that error: with frames already accumulated it returns them as the request bundle,
otherwise it reads more bytes. `fuel` only bounds the iterations. -/

/-- protocol.rs `RedisCmd::fill_output_pipeline_req`. -/
def fill_output_pipeline_req (acc : List RESP) : ClientReq :=
  match acc with
  | [r] => ClientReq.Single r
  | rs => ClientReq.Pipeline rs

/-- Result of `read_async`: a request bundle, an I/O error from `read_buf`
(never produced by the pure chunk model, but kept so that "terminates with an
error" is expressible), or fuel exhaustion. -/
inductive ReadOutcome where
  | req (r : ClientReq)
  | connError
  | fuelOut

def read_async (fuel : Nat) (chunks : List (List Nat)) (buff : Bytes) (acc : List RESP) :
    ReadOutcome :=
  match fuel with
  | 0 => ReadOutcome.fuelOut
  | fuel + 1 =>
    match read buff with
    | some (rem, r) => read_async fuel chunks rem (acc ++ [r])
    | none =>
      match acc with
      | _ :: _ => ReadOutcome.req (fill_output_pipeline_req acc)
      | [] =>
        match chunks with
        | [] => ReadOutcome.req (fill_output_pipeline_req [])
        | c :: cs => read_async fuel cs (buff ++ c) []


/-! ## Helper lemmas -/

theorem takeWhile_all_append (p : Nat → Bool) (l : List Nat) (b : Nat) (t : List Nat)
    (hl : l.all p = true) (hb : p b = false) :
    (l ++ b :: t).takeWhile p = l ∧ (l ++ b :: t).dropWhile p = b :: t := by
  induction l with
  | nil => simp [List.takeWhile_cons, List.dropWhile_cons, hb]
  | cons a l ih =>
    simp only [List.all_cons, Bool.and_eq_true] at hl
    simpa [List.takeWhile_cons, List.dropWhile_cons, hl.1] using ih hl.2

theorem assocGet_assocSet {κ α : Type} [DecidableEq κ] (m : List (κ × α)) (k j : κ) (v : α) :
    assocGet (assocSet m k v) j = if k = j then some v else assocGet m j := by
  induction m with
  | nil => simp [assocSet, assocGet]
  | cons e rest ih =>
    obtain ⟨a, w⟩ := e
    by_cases h1 : a = k
    · subst h1
      by_cases h2 : a = j
      · simp [assocSet, assocGet, h2]
      · simp [assocSet, assocGet, h2]
    · by_cases h2 : a = j
      · subst h2
        have h3 : ¬ a = k := h1
        have h4 : ¬ k = a := fun h => h1 h.symm
        simp [assocSet, assocGet, h3, h4]
      · simp [assocSet, assocGet, h1, h2, ih]

theorem assocGet_assocRemove {κ α : Type} [DecidableEq κ] (m : List (κ × α)) (k j : κ) :
    assocGet (assocRemove m k) j = if j = k then none else assocGet m j := by
  induction m with
  | nil => simp [assocRemove, assocGet]
  | cons e rest ih =>
    obtain ⟨a, w⟩ := e
    by_cases h1 : a = k
    · subst h1
      by_cases h2 : j = a
      · subst h2
        simp [assocRemove, ih]
      · have h3 : ¬ a = j := fun h => h2 h.symm
        simp [assocRemove, assocGet, ih, h2, h3]
    · by_cases h2 : a = j
      · have h3 : ¬ j = k := fun h => h1 (h2.trans h)
        simp [assocRemove, assocGet, h1, h2, h3]
      · simp [assocRemove, assocGet, h1, h2, ih]

theorem assocGet_mem {κ α : Type} [DecidableEq κ] (m : List (κ × α)) (j : κ) (v : α)
    (h : assocGet m j = some v) : (j, v) ∈ m := by
  induction m with
  | nil => simp [assocGet] at h
  | cons e rest ih =>
    obtain ⟨a, w⟩ := e
    by_cases h1 : a = j
    · subst h1
      simp [assocGet] at h
      subst h
      exact List.mem_cons_self _ _
    · simp [assocGet, h1] at h
      exact List.mem_cons_of_mem _ (ih h)


theorem foldl_assocRemove_get {κ α : Type} [DecidableEq κ] (ks : List κ) (m : List (κ × α)) (j : κ) :
    assocGet (ks.foldl (fun acc k0 => assocRemove acc k0) m) j =
      if j ∈ ks then none else assocGet m j := by
  induction ks generalizing m with
  | nil => simp
  | cons k0 ks ih =>
    simp only [List.foldl_cons, ih, List.mem_cons, assocGet_assocRemove]
    by_cases h1 : j ∈ ks
    · simp [h1]
    · by_cases h2 : j = k0
      · simp [h1, h2]
      · simp [h1, h2]

theorem removeInstant_last (st : RedisData) (i : Nat) :
    (removeInstant st i).last_evicted_t = st.last_evicted_t := by
  cases h : assocGet st.eviction i <;> simp [removeInstant, h]

theorem removeInstant_list (st : RedisData) (i : Nat) :
    (removeInstant st i).list_map = st.list_map := by
  cases h : assocGet st.eviction i <;> simp [removeInstant, h]

theorem removeInstant_eviction_get (st : RedisData) (i j : Nat) :
    assocGet (removeInstant st i).eviction j = if j = i then none else assocGet st.eviction j := by
  cases h : assocGet st.eviction i with
  | none =>
    simp only [removeInstant, h]
    by_cases h2 : j = i
    · subst h2; simp [h]
    · simp [h2]
  | some keys => simp [removeInstant, h, assocGet_assocRemove]

theorem removeInstant_single_none (st : RedisData) (i : Nat) (keys : List Bytes) (k : Bytes)
    (h : assocGet st.eviction i = some keys) (hk : k ∈ keys) :
    assocGet (removeInstant st i).single_map k = none := by
  simp [removeInstant, h, foldl_assocRemove_get, hk]

theorem removeInstant_single_keep (st : RedisData) (i : Nat) (k : Bytes)
    (h : ∀ keys, assocGet st.eviction i = some keys → k ∉ keys) :
    assocGet (removeInstant st i).single_map k = assocGet st.single_map k := by
  cases hg : assocGet st.eviction i with
  | none => simp [removeInstant, hg]
  | some keys => simp [removeInstant, hg, foldl_assocRemove_get, h keys hg]

theorem removeInstant_single_mono (st : RedisData) (i : Nat) (k : Bytes)
    (h : assocGet st.single_map k = none) :
    assocGet (removeInstant st i).single_map k = none := by
  cases hg : assocGet st.eviction i with
  | none => simp [removeInstant, hg, h]
  | some keys =>
    simp only [removeInstant, hg, foldl_assocRemove_get]
    by_cases hk : k ∈ keys <;> simp [hk, h]

theorem foldl_removeInstant_last (is : List Nat) (st : RedisData) :
    (is.foldl removeInstant st).last_evicted_t = st.last_evicted_t := by
  induction is generalizing st with
  | nil => rfl
  | cons i is ih => simp [List.foldl_cons, ih, removeInstant_last]

theorem foldl_removeInstant_list (is : List Nat) (st : RedisData) :
    (is.foldl removeInstant st).list_map = st.list_map := by
  induction is generalizing st with
  | nil => rfl
  | cons i is ih => simp [List.foldl_cons, ih, removeInstant_list]

theorem foldl_removeInstant_eviction_get (is : List Nat) (st : RedisData) (j : Nat) :
    assocGet (is.foldl removeInstant st).eviction j =
      if j ∈ is then none else assocGet st.eviction j := by
  induction is generalizing st with
  | nil => simp
  | cons i is ih =>
    simp only [List.foldl_cons, ih, removeInstant_eviction_get, List.mem_cons]
    by_cases h1 : j ∈ is
    · simp [h1]
    · by_cases h2 : j = i
      · simp [h1, h2]
      · simp [h1, h2]

theorem foldl_removeInstant_single_mono (is : List Nat) (st : RedisData) (k : Bytes)
    (h : assocGet st.single_map k = none) :
    assocGet (is.foldl removeInstant st).single_map k = none := by
  induction is generalizing st with
  | nil => exact h
  | cons i is ih => simpa [List.foldl_cons] using ih _ (removeInstant_single_mono st i k h)

theorem foldl_removeInstant_single_none (is : List Nat) (st : RedisData) (k : Bytes)
    (hnd : is.Nodup)
    (h : ∃ i ∈ is, ∃ keys, assocGet st.eviction i = some keys ∧ k ∈ keys) :
    assocGet (is.foldl removeInstant st).single_map k = none := by
  induction is generalizing st with
  | nil => simp at h
  | cons i0 is ih =>
    rcases List.nodup_cons.mp hnd with ⟨hni, hnd'⟩
    rcases h with ⟨i, hi, keys, hget, hk⟩
    rcases List.mem_cons.mp hi with hi0 | hin
    · subst hi0
      exact foldl_removeInstant_single_mono is _ k
        (removeInstant_single_none st i keys k hget hk)
    · have hne : ¬ i = i0 := fun h => hni (h ▸ hin)
      have hget' : assocGet (removeInstant st i0).eviction i = some keys := by
        simp [removeInstant_eviction_get, hne, hget]
      exact ih _ hnd' ⟨i, hin, keys, hget', hk⟩

theorem foldl_removeInstant_single_keep (is : List Nat) (st : RedisData) (k : Bytes)
    (h : ∀ i ∈ is, ∀ keys, assocGet st.eviction i = some keys → k ∉ keys) :
    assocGet (is.foldl removeInstant st).single_map k = assocGet st.single_map k := by
  induction is generalizing st with
  | nil => rfl
  | cons i0 is ih =>
    have step : assocGet (removeInstant st i0).single_map k = assocGet st.single_map k :=
      removeInstant_single_keep st i0 k (fun keys hg => h i0 (List.mem_cons_self _ _) keys hg)
    have hrest : ∀ i ∈ is, ∀ keys,
        assocGet (removeInstant st i0).eviction i = some keys → k ∉ keys := by
      intro i hi keys hg
      rw [removeInstant_eviction_get] at hg
      by_cases he : i = i0
      · simp [he] at hg
      · simp [he] at hg
        exact h i (List.mem_cons_of_mem _ hi) keys hg
    simpa [List.foldl_cons, step] using ih _ hrest

theorem evict_if_needed_eq (d : RedisData) (t : Nat) (hle : d.last_evicted_t ≤ t) :
    evict_if_needed d t = some
      (((d.eviction.filter fun e =>
          decide (d.last_evicted_t ≤ e.1) && decide (e.1 < t)).map Prod.fst).foldl
        removeInstant { d with last_evicted_t := t }) := by
  simp [evict_if_needed, Nat.not_lt.mpr hle]

theorem evict_preserves_list (d : RedisData) (t : Nat) (d1 : RedisData)
    (h : evict_if_needed d t = some d1) : d1.list_map = d.list_map := by
  by_cases hlt : t < d.last_evicted_t
  · simp [evict_if_needed, hlt] at h
  · rw [evict_if_needed_eq d t (Nat.not_lt.mp hlt)] at h
    cases h
    exact foldl_removeInstant_list _ _

theorem evict_last (d : RedisData) (t : Nat) (d1 : RedisData)
    (h : evict_if_needed d t = some d1) : d1.last_evicted_t = t := by
  by_cases hlt : t < d.last_evicted_t
  · simp [evict_if_needed, hlt] at h
  · rw [evict_if_needed_eq d t (Nat.not_lt.mp hlt)] at h
    cases h
    exact foldl_removeInstant_last _ _

theorem mem_to_remove (d : RedisData) (t j : Nat) :
    (j ∈ (d.eviction.filter fun e =>
        decide (d.last_evicted_t ≤ e.1) && decide (e.1 < t)).map Prod.fst) ↔
      ∃ e ∈ d.eviction, e.1 = j ∧ d.last_evicted_t ≤ e.1 ∧ e.1 < t := by
  simp only [List.mem_map, List.mem_filter, Bool.and_eq_true, decide_eq_true_eq]
  constructor
  · rintro ⟨e, ⟨he, h1, h2⟩, hj⟩
    exact ⟨e, he, hj, h1, h2⟩
  · rintro ⟨e, he, hj, h1, h2⟩
    exact ⟨e, ⟨he, h1, h2⟩, hj⟩

theorem to_remove_nodup (d : RedisData) (t : Nat)
    (hnd : (d.eviction.map Prod.fst).Nodup) :
    ((d.eviction.filter fun e =>
        decide (d.last_evicted_t ≤ e.1) && decide (e.1 < t)).map Prod.fst).Nodup :=
  ((List.filter_sublist _).map Prod.fst).nodup hnd

theorem read_bulk_pos (ds payload rest : List Nat) (n : Nat)
    (hne : ds ≠ []) (hdig : ds.all isDigit = true)
    (hval : readIntegerAscii ds = n) (hpos : 0 < n) (hlt : n < 2 ^ 63)
    (hlen : payload.length = n) :
    read_bulk (36 :: (ds ++ 13 :: 10 :: (payload ++ 13 :: 10 :: rest)))
      = some (rest, RESP.BulkString payload) := by
  subst hlen
  rcases ds with _ | ⟨d0, ds'⟩
  · exact absurd rfl hne
  have hd0 : isDigit d0 = true := by
    have h := hdig
    simp only [List.all_cons, Bool.and_eq_true] at h
    exact h.1
  have h45 : ¬ d0 = 45 := by
    simp only [isDigit, Bool.and_eq_true, decide_eq_true_eq] at hd0
    omega
  have htw := takeWhile_all_append isDigit (d0 :: ds') 13
    (10 :: (payload ++ 13 :: 10 :: rest)) hdig (by decide)
  have hposZ : (0 : Int) < ((payload.length : Nat) : Int) := by exact_mod_cast hpos
  simp only [read_bulk, read_decimal, read_positive_decimal, takeWhile1, pchar,
    List.cons_append] at *
  simp only [if_true, Option.some_bind]
  simp only [if_neg h45]
  simp only [htw.1, htw.2, List.isEmpty_cons, Bool.false_eq_true, if_false,
    Option.map_some', Option.some_bind, hval]
  simp only [pcrlf]
  simp only [asI64, if_pos hlt, if_pos hposZ, Int.toNat_natCast, ptake]
  simp [List.take_left, List.drop_left, pcrlf]

theorem read_on_dollar (tail : List Nat) :
    read (36 :: tail) = read_bulk (36 :: tail) := by
  have harr : read_array (36 :: tail) = none := by simp [read_array, pchar]
  have hinl : read_inline_commands (36 :: tail) = none := by
    simp [read_inline_commands, takeWhile1, List.takeWhile_cons, isAlnum]
  have hint : read_integer (36 :: tail) = none := by simp [read_integer, pchar]
  have hsim : read_simple (36 :: tail) = none := by simp [read_simple, pchar]
  have herr : read_error (36 :: tail) = none := by simp [read_error, pchar]
  cases hb : read_bulk (36 :: tail) with
  | none => simp [read, harr, hinl, hint, hsim, herr, hb]
  | some r => simp [read, harr, hinl, hint, hsim, hb]

theorem read_zero_bulk (rest2 : List Nat) :
    read (36 :: 48 :: 13 :: 10 :: rest2) = some (rest2, RESP.Null) := by
  rw [read_on_dollar]
  have hv : readIntegerAscii [48] = 0 := by decide
  simp [read_bulk, read_decimal, read_positive_decimal, takeWhile1, pchar,
    List.takeWhile_cons, List.dropWhile_cons, isDigit, pcrlf, hv, asI64]

theorem read_neg_one_bulk (rest3 : List Nat) :
    read (36 :: 45 :: 49 :: 13 :: 10 :: rest3) = some (rest3, RESP.Null) := by
  rw [read_on_dollar]
  have hv : wrapI64 (-(asI64 (readIntegerAscii [49]))) = -1 := by decide
  simp [read_bulk, read_decimal, read_positive_decimal, takeWhile1, pchar,
    List.takeWhile_cons, List.dropWhile_cons, isDigit, pcrlf, hv]

theorem wrapI64_eq_self (x : Int) (h1 : -(2 ^ 63) ≤ x) (h2 : x < 2 ^ 63) : wrapI64 x = x := by
  unfold wrapI64
  have h3 : (0 : Int) ≤ x + 2 ^ 63 := by omega
  have h4 : x + 2 ^ 63 < 2 ^ 64 := by omega
  rw [Int.emod_eq_of_lt h3 h4]
  omega

theorem parseI64_range (bs : Bytes) (v : Int) (h : parseI64 bs = some v) :
    -(2 ^ 63) ≤ v ∧ v ≤ 2 ^ 63 - 1 := by
  unfold parseI64 at h
  split_ifs at h with h1 h2 h3 h4 h5
  · cases h
    constructor <;> omega
  · cases h
    constructor <;> omega

theorem isSome_assocSet {κ α : Type} [DecidableEq κ] (m : List (κ × α)) (k j : κ) (v : α)
    (h : (assocGet m j).isSome = true) : (assocGet (assocSet m k v) j).isSome = true := by
  rw [assocGet_assocSet]
  by_cases hkj : k = j <;> simp [hkj, h]

theorem insert_eviction_list (d : RedisData) (k : Bytes) (t : Nat) :
    (insert_eviction d k t).list_map = d.list_map := by
  cases h : assocGet d.eviction t <;> simp [insert_eviction, h]

theorem set_list (d : RedisData) (k v : Bytes) (e : Option Nat) :
    (d.set k v e).list_map = d.list_map := by
  cases e <;> simp [RedisData.set, insert_eviction_list]

theorem l_push_list (d : RedisData) (k v : Bytes) :
    (d.l_push k v none).list_map = assocSet d.list_map k (v :: (assocGet d.list_map k).getD []) := by
  simp [RedisData.l_push]

theorem r_push_list (d : RedisData) (k v : Bytes) :
    (d.r_push k v none).list_map
      = assocSet d.list_map k ((assocGet d.list_map k).getD [] ++ [v]) := by
  simp [RedisData.r_push]

theorem l_pop_list_mono (d : RedisData) (k0 k : Bytes)
    (hk : (assocGet d.list_map k).isSome = true) :
    (assocGet (d.l_pop k0).1.list_map k).isSome = true := by
  cases h : assocGet d.list_map k0 with
  | none => simpa [RedisData.l_pop, h] using hk
  | some l =>
    cases l with
    | nil => simpa [RedisData.l_pop, h] using hk
    | cons v rest => simpa [RedisData.l_pop, h] using isSome_assocSet _ _ _ _ hk

theorem r_pop_list_mono (d : RedisData) (k0 k : Bytes)
    (hk : (assocGet d.list_map k).isSome = true) :
    (assocGet (d.r_pop k0).1.list_map k).isSome = true := by
  cases h : assocGet d.list_map k0 with
  | none => simpa [RedisData.r_pop, h] using hk
  | some l =>
    cases hl : l.getLast? with
    | none => simpa [RedisData.r_pop, h, hl] using hk
    | some v => simpa [RedisData.r_pop, h, hl] using isSome_assocSet _ _ _ _ hk

theorem handle1_state (d : RedisData) (c1 : RESP) (d' : RedisData) (r : RESP)
    (h : handle1 d c1 = some (d', r)) : d' = d := by
  cases c1 <;>
    first
    | (rw [handle1] at h
       split_ifs at h <;>
         (simp only [Option.some.injEq, Prod.mk.injEq] at h; exact h.1.symm))
    | (simp only [handle1, Option.some.injEq, Prod.mk.injEq] at h; exact h.1.symm)

theorem handle2_list_mono (d : RedisData) (c1 c2 : RESP) (t : Nat) (d' : RedisData) (r : RESP)
    (k : Bytes) (h : handle2 d c1 c2 t = some (d', r))
    (hk : (assocGet d.list_map k).isSome = true) :
    (assocGet d'.list_map k).isSome = true := by
  cases c1 with
  | BulkString cmd =>
    cases c2 with
    | BulkString key =>
      rw [handle2] at h
      split_ifs at h with hGET hINCR hLPOP hRPOP
      · rcases Option.map_eq_some'.mp h with ⟨p, hp, heq⟩
        rcases Option.map_eq_some'.mp hp with ⟨d1, hd1, hp1⟩
        have hd' : d' = p.1 := (congrArg Prod.fst heq).symm
        have hp1' : p.1 = d1 := by rw [← hp1]
        rw [hd', hp1', evict_preserves_list d t d1 hd1]
        exact hk
      · rcases Option.map_eq_some'.mp h with ⟨p, hp, heq⟩
        rcases Option.map_eq_some'.mp hp with ⟨d1, hd1, hp1⟩
        obtain ⟨p1, px⟩ := p
        have hp1' : p1 = d1 := by
          cases hg : assocGet d1.single_map key with
          | none =>
            simp only [hg, Prod.mk.injEq] at hp1
            exact hp1.1.symm
          | some raw =>
            cases hq : parseI64 raw with
            | none =>
              simp only [hg, hq, Prod.mk.injEq] at hp1
              exact hp1.1.symm
            | some i =>
              simp only [hg, hq, Prod.mk.injEq] at hp1
              exact hp1.1.symm
        have hd' : d' = p1 := by
          cases px with
          | ok o =>
            cases o with
            | none => exact ((Prod.mk.injEq _ _ _ _).mp heq).1.symm
            | some i => exact ((Prod.mk.injEq _ _ _ _).mp heq).1.symm
          | error msg => exact ((Prod.mk.injEq _ _ _ _).mp heq).1.symm
        rw [hd', hp1', evict_preserves_list d t d1 hd1]
        exact hk
      · simp only [Option.some.injEq, Prod.mk.injEq] at h
        rw [← h.1]
        exact l_pop_list_mono d key k hk
      · simp only [Option.some.injEq, Prod.mk.injEq] at h
        rw [← h.1]
        exact r_pop_list_mono d key k hk
      · simp only [Option.some.injEq, Prod.mk.injEq] at h
        rw [← h.1]
        exact hk
    | SimpleString s => simp only [handle2, Option.some.injEq, Prod.mk.injEq] at h; rw [← h.1]; exact hk
    | Error e1 e2 => simp only [handle2, Option.some.injEq, Prod.mk.injEq] at h; rw [← h.1]; exact hk
    | Integer i => simp only [handle2, Option.some.injEq, Prod.mk.injEq] at h; rw [← h.1]; exact hk
    | Array a => simp only [handle2, Option.some.injEq, Prod.mk.injEq] at h; rw [← h.1]; exact hk
    | Null => simp only [handle2, Option.some.injEq, Prod.mk.injEq] at h; rw [← h.1]; exact hk
  | SimpleString s => simp only [handle2, Option.some.injEq, Prod.mk.injEq] at h; rw [← h.1]; exact hk
  | Error e1 e2 => simp only [handle2, Option.some.injEq, Prod.mk.injEq] at h; rw [← h.1]; exact hk
  | Integer i => simp only [handle2, Option.some.injEq, Prod.mk.injEq] at h; rw [← h.1]; exact hk
  | Array a => simp only [handle2, Option.some.injEq, Prod.mk.injEq] at h; rw [← h.1]; exact hk
  | Null => simp only [handle2, Option.some.injEq, Prod.mk.injEq] at h; rw [← h.1]; exact hk

theorem handle3_list_mono (d : RedisData) (c1 c2 c3 : RESP) (d' : RedisData) (r : RESP)
    (k : Bytes) (h : handle3 d c1 c2 c3 = some (d', r))
    (hk : (assocGet d.list_map k).isSome = true) :
    (assocGet d'.list_map k).isSome = true := by
  cases c1 <;> cases c2 <;> cases c3 <;>
    simp only [handle3, Option.some.injEq, Prod.mk.injEq] at h <;>
    try (rw [← h.1]; exact hk)
  all_goals
    split_ifs at h <;> simp only [Option.some.injEq, Prod.mk.injEq] at h <;> rw [← h.1] <;>
      first
      | (rw [set_list]; exact hk)
      | (rw [l_push_list]; exact isSome_assocSet _ _ _ _ hk)
      | (rw [r_push_list]; exact isSome_assocSet _ _ _ _ hk)
      | exact hk

theorem handleArray_list_mono (d : RedisData) (cmds : List RESP) (t : Nat) (d' : RedisData)
    (r : RESP) (k : Bytes) (h : handleArray d cmds t = some (d', r))
    (hk : (assocGet d.list_map k).isSome = true) :
    (assocGet d'.list_map k).isSome = true := by
  rcases cmds with _ | ⟨c1, _ | ⟨c2, _ | ⟨c3, _ | ⟨c4, cs⟩⟩⟩⟩
  · simp only [handleArray, Option.some.injEq, Prod.mk.injEq] at h
    rw [← h.1]
    exact hk
  · rw [handle1_state d c1 d' r h]
    exact hk
  · exact handle2_list_mono d c1 c2 t d' r k h hk
  · exact handle3_list_mono d c1 c2 c3 d' r k h hk
  · simp only [handleArray, Option.some.injEq, Prod.mk.injEq] at h
    rw [← h.1]
    exact hk


/-! ## Claim theorems -/

/-- C1: the spec claims the inline pipeline PING, PING, PING (one socket write) yields
three SimpleString PONG replies. The decoder indeed produces three one-element arrays
of SimpleString tokens in a single Pipeline bundle, but `handle_request` matches only
`BulkString` command tokens, so each inline PING is answered with
`Error("Error", "too many arguments")`, not PONG: the code contradicts the claim. -/
theorem c1_inline_ping_pipeline :
    read_async 8 [bytesOf "PING\r\nPING\r\nPING\r\n"] [] []
      = ReadOutcome.req (ClientReq.Pipeline
          [RESP.Array [RESP.SimpleString (bytesOf "PING")],
           RESP.Array [RESP.SimpleString (bytesOf "PING")],
           RESP.Array [RESP.SimpleString (bytesOf "PING")]]) ∧
    handlePipeline emptyRedisData
        [RESP.Array [RESP.SimpleString (bytesOf "PING")],
         RESP.Array [RESP.SimpleString (bytesOf "PING")],
         RESP.Array [RESP.SimpleString (bytesOf "PING")]] 0
      = some (emptyRedisData, [errorResp, errorResp, errorResp]) ∧
    ¬ errorResp = RESP.SimpleString (bytesOf "PONG") :=
  ⟨rfl, rfl, fun h => RESP.noConfusion h⟩

/-- C2 (counterexample): the claim that a fatal decode error terminates the session
with an error is false. On the buffer "?x\r\n" the parser fails (fatal), yet
`read_async` keeps reading: it consumes the next socket chunk and, at end of stream,
returns an ordinary (empty) request bundle instead of an error. -/
theorem c2_counterexample :
    read (bytesOf "?x\r\n") = none ∧
    read_async 9 [bytesOf "+OK\r\n"] (bytesOf "?x\r\n") []
      = ReadOutcome.req (ClientReq.Pipeline []) ∧
    ¬ read_async 9 [bytesOf "+OK\r\n"] (bytesOf "?x\r\n") [] = ReadOutcome.connError :=
  ⟨rfl, rfl, fun h => ReadOutcome.noConfusion h⟩

/-- C2 (amended): when the decoder reports a fatal error on the buffered bytes, the
session does not terminate: with frames already accumulated it returns them as the
request bundle, otherwise it reads another chunk from the socket, and at end of
stream it returns an empty bundle; the buffer (hence every already-acknowledged,
i.e. already-consumed, byte) is left untouched by the failed parse. -/
theorem c2_fatal_decode_session (fuel : Nat) (chunks : List (List Nat)) (buff : Bytes)
    (acc : List RESP) (h : read buff = none) :
    (acc ≠ [] → read_async (fuel + 1) chunks buff acc
        = ReadOutcome.req (fill_output_pipeline_req acc)) ∧
    (∀ c cs, read_async (fuel + 1) (c :: cs) buff []
        = read_async fuel cs (buff ++ c) []) ∧
    read_async (fuel + 1) [] buff [] = ReadOutcome.req (ClientReq.Pipeline []) := by
  refine ⟨?_, ?_, ?_⟩
  · intro hacc
    cases acc with
    | nil => exact absurd rfl hacc
    | cons a as => simp [read_async, h]
  · intro c cs
    simp [read_async, h]
  · simp [read_async, h, fill_output_pipeline_req]

/-- Witness for C2: a session holding one decoded frame over the fatal buffer
"?x\r\n" returns that frame as a Single bundle. -/
theorem c2_fatal_decode_session_witness :
    read (bytesOf "?x\r\n") = none ∧
    read_async 3 [] (bytesOf "?x\r\n") [RESP.Null]
      = ReadOutcome.req (ClientReq.Single RESP.Null) :=
  ⟨rfl, (c2_fatal_decode_session 2 [] (bytesOf "?x\r\n") [RESP.Null] rfl).1 (by simp)⟩

/-- C3: the spec claims decode-accepted frames re-encode and decode to themselves, in
particular Error frames "encoded as kind, one space, message". The decoder accepts
"-ERR boom\r\n" as Error("ERR","boom"), but the encoder writes the kind and message
with NO separating space, producing "-ERRboom\r\n", which the decoder rejects
(after the alphanumeric kind it requires at least one space): the code contradicts
the round-trip claim on every Error frame. -/
theorem c3_error_frame_roundtrip :
    read (bytesOf "-ERR boom\r\n") = some ([], RESP.Error (bytesOf "ERR") (bytesOf "boom")) ∧
    RESP.write_async (RESP.Error (bytesOf "ERR") (bytesOf "boom")) = bytesOf "-ERRboom\r\n" ∧
    read (bytesOf "-ERRboom\r\n") = none :=
  ⟨rfl, rfl, rfl⟩

/-- C4 (counterexample): the claim that a scan with t ≤ last_scanned is a no-op with
no failure is false for t < last_scanned: `BTreeMap::range(last..t)` is called with
an inverted range, which panics (modelled by `none`) instead of leaving the state
unchanged. -/
theorem c4_counterexample :
    evict_if_needed { single_map := [], list_map := [], eviction := [], last_evicted_t := 5 } 3
      = none := rfl

/-- C4 (amended): for every watermark and every tick t with last_scanned ≤ t, the scan
succeeds and collects exactly the index entries with instant in [last_scanned, t):
those instants disappear from the index, every key they reference is removed from
the string store, all other index entries and keys are untouched, the list store is
untouched, and the watermark becomes t; at t = last_scanned the scan is a no-op.
(For t < last_scanned it fails, see the counterexample.) The key-uniqueness
hypothesis reflects the BTreeMap invariant. -/
theorem c4_eviction_scan (d : RedisData) (t : Nat)
    (hnd : (d.eviction.map Prod.fst).Nodup) (hle : d.last_evicted_t ≤ t) :
    ∃ d', evict_if_needed d t = some d' ∧
      d'.last_evicted_t = t ∧
      d'.list_map = d.list_map ∧
      (∀ j, d.last_evicted_t ≤ j → j < t → assocGet d'.eviction j = none) ∧
      (∀ j, ¬ (d.last_evicted_t ≤ j ∧ j < t) →
        assocGet d'.eviction j = assocGet d.eviction j) ∧
      (∀ k i keys, d.last_evicted_t ≤ i → i < t → assocGet d.eviction i = some keys →
        k ∈ keys → assocGet d'.single_map k = none) ∧
      (∀ k, (∀ i keys, d.last_evicted_t ≤ i → i < t →
          assocGet d.eviction i = some keys → k ∉ keys) →
        assocGet d'.single_map k = assocGet d.single_map k) ∧
      (t = d.last_evicted_t → d' = d) := by
  refine ⟨_, evict_if_needed_eq d t hle, ?_, ?_, ?_, ?_, ?_, ?_, ?_⟩
  · exact foldl_removeInstant_last _ _
  · exact foldl_removeInstant_list _ _
  · intro j h1 h2
    rw [foldl_removeInstant_eviction_get]
    by_cases hm : j ∈ (d.eviction.filter fun e =>
        decide (d.last_evicted_t ≤ e.1) && decide (e.1 < t)).map Prod.fst
    · simp [hm]
    · simp only [hm, if_false]
      show assocGet d.eviction j = none
      cases hg : assocGet d.eviction j with
      | none => rfl
      | some keys =>
        exact absurd ((mem_to_remove d t j).mpr
          ⟨(j, keys), assocGet_mem _ _ _ hg, rfl, h1, h2⟩) hm
  · intro j hnot
    rw [foldl_removeInstant_eviction_get]
    have hm : ¬ j ∈ (d.eviction.filter fun e =>
        decide (d.last_evicted_t ≤ e.1) && decide (e.1 < t)).map Prod.fst := by
      intro hm
      rcases (mem_to_remove d t j).mp hm with ⟨e, _, hej, h1, h2⟩
      exact hnot ⟨hej ▸ h1, hej ▸ h2⟩
    simp only [hm, if_false]
  · intro k i keys h1 h2 hg hk
    exact foldl_removeInstant_single_none _ _ _ (to_remove_nodup d t hnd)
      ⟨i, (mem_to_remove d t i).mpr ⟨(i, keys), assocGet_mem _ _ _ hg, rfl, h1, h2⟩,
        keys, hg, hk⟩
  · intro k h
    exact foldl_removeInstant_single_keep _ _ _ (by
      intro i hi keys hg
      rcases (mem_to_remove d t i).mp hi with ⟨e, _, hej, h1, h2⟩
      exact h i keys (hej ▸ h1) (hej ▸ h2) hg)
  · intro ht
    have hnil : (d.eviction.filter fun e =>
        decide (d.last_evicted_t ≤ e.1) && decide (e.1 < t)) = [] := by
      refine List.filter_eq_nil_iff.mpr ?_
      intro e _
      simp only [Bool.and_eq_true, decide_eq_true_eq, not_and]
      intro h1 h2
      omega
    rw [hnil]
    subst ht
    rfl

/-- Witness for C4: a scan at tick 5 over a store holding key "a" scheduled for
eviction at instant 3, with watermark 2. -/
theorem c4_eviction_scan_witness :
    ((([(3, [bytesOf "a"])] : List (Nat × List Bytes)).map Prod.fst).Nodup ∧ 2 ≤ 5) ∧
    (∃ d', evict_if_needed ⟨[(bytesOf "a", bytesOf "1")], [], [(3, [bytesOf "a"])], 2⟩ 5
        = some d' ∧
      d'.last_evicted_t = 5 ∧
      d'.list_map = [] ∧
      (∀ j, 2 ≤ j → j < 5 → assocGet d'.eviction j = none) ∧
      (∀ j, ¬ (2 ≤ j ∧ j < 5) →
        assocGet d'.eviction j = assocGet [(3, [bytesOf "a"])] j) ∧
      (∀ k i keys, 2 ≤ i → i < 5 → assocGet [(3, [bytesOf "a"])] i = some keys →
        k ∈ keys → assocGet d'.single_map k = none) ∧
      (∀ k, (∀ i keys, 2 ≤ i → i < 5 →
          assocGet [(3, [bytesOf "a"])] i = some keys → k ∉ keys) →
        assocGet d'.single_map k = assocGet [(bytesOf "a", bytesOf "1")] k) ∧
      (5 = 2 → d' = ⟨[(bytesOf "a", bytesOf "1")], [], [(3, [bytesOf "a"])], 2⟩)) :=
  ⟨⟨by decide, by decide⟩,
    c4_eviction_scan ⟨[(bytesOf "a", bytesOf "1")], [], [(3, [bytesOf "a"])], 2⟩ 5
      (by decide) (by decide)⟩

/-- C5 (counterexample): the claim that a declared length of 0 decodes to the empty
BulkString is false: `read_bulk` treats every non-positive length as `Null`, so
"$0\r\n\r\n" decodes to `Null` after consuming only "$0\r\n" (the trailing CR LF is
left in the remainder), and not to `BulkString []`. -/
theorem c5_counterexample :
    read (bytesOf "$0\r\n\r\n") = some ([13, 10], RESP.Null) ∧
    ¬ read (bytesOf "$0\r\n\r\n") = some ([], RESP.BulkString []) := by
  refine ⟨rfl, fun h => ?_⟩
  exact absurd (Option.some.inj h) (by simp)

/-- C5 (amended): a bulk frame with digit string `ds` of (wrapped) value n, 0 < n <
2^63, decodes to the BulkString of exactly the n payload bytes followed by CR LF;
a declared length of 0 and the declared length -1 both decode to `Null` immediately
after the length's CR LF. -/
theorem c5_bulk_decode (ds payload rest : List Nat) (n : Nat)
    (hne : ds ≠ []) (hdig : ds.all isDigit = true)
    (hval : readIntegerAscii ds = n) (hpos : 0 < n) (hlt : n < 2 ^ 63)
    (hlen : payload.length = n) :
    read (36 :: (ds ++ 13 :: 10 :: (payload ++ 13 :: 10 :: rest)))
      = some (rest, RESP.BulkString payload) ∧
    (∀ rest2, read (36 :: 48 :: 13 :: 10 :: rest2) = some (rest2, RESP.Null)) ∧
    (∀ rest3, read (36 :: 45 :: 49 :: 13 :: 10 :: rest3) = some (rest3, RESP.Null)) := by
  refine ⟨?_, read_zero_bulk, read_neg_one_bulk⟩
  rw [read_on_dollar]
  exact read_bulk_pos ds payload rest n hne hdig hval hpos hlt hlen

/-- Witness for C5: "$5\r\nhello\r\n" decodes to BulkString "hello". -/
theorem c5_bulk_decode_witness :
    (([53] : List Nat) ≠ [] ∧ [53].all isDigit = true ∧ readIntegerAscii [53] = 5 ∧
      0 < 5 ∧ 5 < 2 ^ 63 ∧ (bytesOf "hello").length = 5) ∧
    read (36 :: ([53] ++ 13 :: 10 :: (bytesOf "hello" ++ 13 :: 10 :: [])))
      = some ([], RESP.BulkString (bytesOf "hello")) :=
  ⟨⟨by decide, by decide, by decide, by decide, by decide, by decide⟩,
    (c5_bulk_decode [53] (bytesOf "hello") [] 5 (by decide) (by decide) (by decide)
      (by decide) (by decide) (by decide)).1⟩

/-- C6 (counterexample): two parts of the claim fail on the code. First, on the value
9223372036854775807 (i64::MAX) INCR does not reply "the decimal value+1": the i64
addition wraps and the reply is SimpleString "-9223372036854775808". Second, the
string store is not always left unchanged: INCR runs the eviction scan first, which
here removes the expired key "j" while INCR on "x" replies 6. -/
theorem c6_counterexample :
    (handle_request ⟨[(bytesOf "x", bytesOf "9223372036854775807")], [], [], 0⟩
        (RESP.Array [RESP.BulkString (bytesOf "INCR"), RESP.BulkString (bytesOf "x")]) 0
      = some (⟨[(bytesOf "x", bytesOf "9223372036854775807")], [], [], 0⟩,
          RESP.SimpleString (bytesOf "-9223372036854775808")) ∧
      ¬ bytesOf "-9223372036854775808" = bytesOf "9223372036854775808") ∧
    handle_request ⟨[(bytesOf "j", bytesOf "1"), (bytesOf "x", bytesOf "5")], [],
        [(1, [bytesOf "j"])], 0⟩
        (RESP.Array [RESP.BulkString (bytesOf "INCR"), RESP.BulkString (bytesOf "x")]) 2
      = some (⟨[(bytesOf "x", bytesOf "5")], [], [], 2⟩, RESP.SimpleString (bytesOf "6")) :=
  ⟨⟨rfl, by decide⟩, rfl⟩

/-- C6 (amended): after the eviction scan that INCR runs first (state d1), INCR on an
absent key replies Null; on a key whose value parses as a signed 64-bit decimal v
with v < 2^63 - 1 it replies SimpleString of the decimal v+1 while leaving the
store exactly at the post-scan state d1 (no write-back); on a value that does not
parse it replies an Error frame with kind "WRONG_TYPE". (At v = 2^63 - 1 the
addition wraps, see the counterexample.) -/
theorem c6_incr_semantics (d : RedisData) (k raw : Bytes) (t : Nat) (d1 : RedisData)
    (hev : evict_if_needed d t = some d1) :
    (assocGet d1.single_map k = none →
      handle_request d (RESP.Array [RESP.BulkString (bytesOf "INCR"), RESP.BulkString k]) t
        = some (d1, RESP.Null)) ∧
    (∀ v, assocGet d1.single_map k = some raw → parseI64 raw = some v → v < 2 ^ 63 - 1 →
      handle_request d (RESP.Array [RESP.BulkString (bytesOf "INCR"), RESP.BulkString k]) t
        = some (d1, RESP.SimpleString (intToBytes (v + 1)))) ∧
    (assocGet d1.single_map k = some raw → parseI64 raw = none →
      handle_request d (RESP.Array [RESP.BulkString (bytesOf "INCR"), RESP.BulkString k]) t
        = some (d1, RESP.Error (bytesOf "WRONG_TYPE") incrErrMsg)) := by
  have hstep : handle_request d
      (RESP.Array [RESP.BulkString (bytesOf "INCR"), RESP.BulkString k]) t
      = (d.incr k t).map fun p =>
          match p.2 with
          | Except.ok none => (p.1, RESP.Null)
          | Except.ok (some i) => (p.1, RESP.SimpleString (intToBytes i))
          | Except.error msg => (p.1, RESP.Error (bytesOf "WRONG_TYPE") msg) := by
    show handle2 d (RESP.BulkString (bytesOf "INCR")) (RESP.BulkString k) t = _
    rw [handle2]
    rw [if_neg (by decide), if_pos rfl]
  refine ⟨?_, ?_, ?_⟩
  · intro hget
    rw [hstep]
    simp [RedisData.incr, hev, hget]
  · intro v hget hparse hlt
    rw [hstep]
    have hb := parseI64_range raw v hparse
    have hw : wrapI64 (v + 1) = v + 1 := wrapI64_eq_self _ (by omega) (by omega)
    simp [RedisData.incr, hev, hget, hparse, hw]
  · intro hget hparse
    rw [hstep]
    simp [RedisData.incr, hev, hget, hparse]

/-- Witness for C6: INCR on a key holding "41" (no pending evictions) replies 42 and
leaves the store as it was. -/
theorem c6_incr_semantics_witness :
    (evict_if_needed ⟨[(bytesOf "x", bytesOf "41")], [], [], 0⟩ 0
        = some ⟨[(bytesOf "x", bytesOf "41")], [], [], 0⟩ ∧
      assocGet ([(bytesOf "x", bytesOf "41")] : List (Bytes × Bytes)) (bytesOf "x")
        = some (bytesOf "41") ∧
      parseI64 (bytesOf "41") = some 41 ∧ (41 : Int) < 2 ^ 63 - 1) ∧
    handle_request ⟨[(bytesOf "x", bytesOf "41")], [], [], 0⟩
        (RESP.Array [RESP.BulkString (bytesOf "INCR"), RESP.BulkString (bytesOf "x")]) 0
      = some (⟨[(bytesOf "x", bytesOf "41")], [], [], 0⟩,
          RESP.SimpleString (bytesOf "42")) :=
  ⟨⟨rfl, rfl, by decide, by decide⟩,
    (c6_incr_semantics ⟨[(bytesOf "x", bytesOf "41")], [], [], 0⟩ (bytesOf "x")
      (bytesOf "41") 0 ⟨[(bytesOf "x", bytesOf "41")], [], [], 0⟩ rfl).2.1 41 rfl
      (by decide) (by decide)⟩

/-- C7: digits-only and minus-only-first hold (":1-2\r\n" and ":a\r\n" are rejected),
but the overflow part of the claim fails on the code: `read_integer_ascii`
accumulates in wrapping u64 arithmetic, so ":18446744073709551616\r\n" (2^64, which
overflows both u64 and i64) decodes successfully to Integer 0 instead of surfacing
a fatal decode error. -/
theorem c7_overflow_wraps :
    read (bytesOf ":18446744073709551616\r\n") = some ([], RESP.Integer 0) ∧
    read (bytesOf ":1-2\r\n") = none ∧
    read (bytesOf ":a\r\n") = none :=
  ⟨rfl, rfl, rfl⟩

/-- C8 (counterexample): the claim that the engine exits its loop on channel close is
false: with the channel closed (no messages) the loop body's None arm only logs and
iterates again, so after consuming all its fuel polling it is still `running` and
the `exited` outcome is never reached. -/
theorem c8_counterexample :
    start_loop 4 emptyRedisData [] [] = LoopOutcome.running emptyRedisData [] ∧
    (LoopOutcome.running emptyRedisData []).isExited = false :=
  ⟨rfl, rfl⟩

/-- C8 (amended): the engine loop never exits — on a closed channel (message list
exhausted) each iteration just polls again, and no execution path produces the
`exited` outcome. -/
theorem c8_engine_loop_never_exits :
    (∀ fuel d msgs sent, (start_loop fuel d msgs sent).isExited = false) ∧
    (∀ fuel d sent, start_loop (fuel + 1) d [] sent = start_loop fuel d [] sent) := by
  constructor
  · intro fuel
    induction fuel with
    | zero => intro d msgs sent; rfl
    | succ n ih =>
      intro d msgs sent
      match msgs with
      | [] => exact ih d [] sent
      | (t, ClientReq.Single r) :: rest =>
        cases h : handle_request d r t with
        | none => simp [start_loop, h, LoopOutcome.isExited]
        | some p =>
          simpa [start_loop, h] using ih p.1 rest (ClientReq.Single p.2 :: sent)
      | (t, ClientReq.Pipeline rs) :: rest =>
        cases h : handlePipeline d rs t with
        | none => simp [start_loop, h, LoopOutcome.isExited]
        | some p =>
          simpa [start_loop, h] using ih p.1 rest (ClientReq.Pipeline p.2 :: sent)
  · intro fuel d sent
    rfl

/-- C9: an empty command array replies Error("todo","empty command"); arrays of more
than three elements, and unknown command names at every arity, reply
Error("Error","too many arguments"); and the engine loop delivers such a reply
in-band through the reply slot and continues with the next message — command errors
never terminate the engine. -/
theorem c9_command_errors :
    (∀ d t, handle_request d (RESP.Array []) t
        = some (d, RESP.Error (bytesOf "todo") (bytesOf "empty command"))) ∧
    (∀ d t (cmds : List RESP), 3 < cmds.length →
        handle_request d (RESP.Array cmds) t = some (d, errorResp)) ∧
    (∀ d t c, ¬ c = bytesOf "PING" → ¬ c = bytesOf "COMMAND" →
        handle_request d (RESP.Array [RESP.BulkString c]) t = some (d, errorResp)) ∧
    (∀ d t c k, ¬ c = bytesOf "GET" → ¬ c = bytesOf "INCR" → ¬ c = bytesOf "LPOP" →
        ¬ c = bytesOf "RPOP" →
        handle_request d (RESP.Array [RESP.BulkString c, RESP.BulkString k]) t
          = some (d, errorResp)) ∧
    (∀ d t c k v, ¬ c = bytesOf "SET" → ¬ c = bytesOf "LPUSH" → ¬ c = bytesOf "RPUSH" →
        handle_request d (RESP.Array [RESP.BulkString c, RESP.BulkString k, RESP.BulkString v]) t
          = some (d, errorResp)) ∧
    (∀ fuel d t req rest sent d' resp, handle_request d req t = some (d', resp) →
        start_loop (fuel + 1) d ((t, ClientReq.Single req) :: rest) sent
          = start_loop fuel d' rest (ClientReq.Single resp :: sent)) := by
  refine ⟨?_, ?_, ?_, ?_, ?_, ?_⟩
  · intro d t
    rfl
  · intro d t cmds h
    rcases cmds with _ | ⟨a, _ | ⟨b, _ | ⟨c, _ | ⟨e, es⟩⟩⟩⟩ <;> simp at h
    rfl
  · intro d t c h1 h2
    show handle1 d (RESP.BulkString c) = _
    simp [handle1, h1, h2]
  · intro d t c k h1 h2 h3 h4
    show handle2 d (RESP.BulkString c) (RESP.BulkString k) t = _
    simp [handle2, h1, h2, h3, h4]
  · intro d t c k v h1 h2 h3
    show handle3 d (RESP.BulkString c) (RESP.BulkString k) (RESP.BulkString v) = _
    simp [handle3, h1, h2, h3]
  · intro fuel d t req rest sent d' resp h
    simp [start_loop, h]

/-- Witness for C9: an unknown one-element command, an over-arity array, and one
engine step delivering the empty-command error in-band and continuing. -/
theorem c9_command_errors_witness :
    handle_request emptyRedisData (RESP.Array [RESP.BulkString (bytesOf "FOO")]) 0
      = some (emptyRedisData, errorResp) ∧
    handle_request emptyRedisData
        (RESP.Array [RESP.Null, RESP.Null, RESP.Null, RESP.Null]) 0
      = some (emptyRedisData, errorResp) ∧
    start_loop 1 emptyRedisData [(0, ClientReq.Single (RESP.Array []))] []
      = start_loop 0 emptyRedisData []
          [ClientReq.Single (RESP.Error (bytesOf "todo") (bytesOf "empty command"))] :=
  ⟨c9_command_errors.2.2.1 emptyRedisData 0 (bytesOf "FOO") (by decide) (by decide),
   c9_command_errors.2.1 emptyRedisData 0 [RESP.Null, RESP.Null, RESP.Null, RESP.Null]
     (by decide),
   c9_command_errors.2.2.2.2.2 0 emptyRedisData 0 (RESP.Array []) [] [] emptyRedisData
     (RESP.Error (bytesOf "todo") (bytesOf "empty command")) rfl⟩

/-- C10: every command preserves membership of every key in the list store; LPUSH and
RPUSH create the key's entry (the key is mapped afterwards); LPOP and RPOP on a key
mapped to the empty sequence reply Null and leave the state unchanged (the entry
stays); and popping the last element keeps the key mapped (to the empty sequence),
so a drained list's key remains present. -/
theorem c10_list_membership :
    (∀ d req t d' r k, handle_request d req t = some (d', r) →
        (assocGet d.list_map k).isSome = true → (assocGet d'.list_map k).isSome = true) ∧
    (∀ d k v t, handle_request d
          (RESP.Array [RESP.BulkString (bytesOf "LPUSH"), RESP.BulkString k,
            RESP.BulkString v]) t
        = some (d.l_push k v none, okResp) ∧
      (assocGet (d.l_push k v none).list_map k).isSome = true) ∧
    (∀ d k v t, handle_request d
          (RESP.Array [RESP.BulkString (bytesOf "RPUSH"), RESP.BulkString k,
            RESP.BulkString v]) t
        = some (d.r_push k v none, okResp) ∧
      (assocGet (d.r_push k v none).list_map k).isSome = true) ∧
    (∀ d k t, assocGet d.list_map k = some [] →
      (handle_request d (RESP.Array [RESP.BulkString (bytesOf "LPOP"), RESP.BulkString k]) t
        = some (d, RESP.Null)) ∧
      (handle_request d (RESP.Array [RESP.BulkString (bytesOf "RPOP"), RESP.BulkString k]) t
        = some (d, RESP.Null))) ∧
    (∀ d k v l t, assocGet d.list_map k = some (v :: l) →
      (handle_request d (RESP.Array [RESP.BulkString (bytesOf "LPOP"), RESP.BulkString k]) t
        = some ({ d with list_map := assocSet d.list_map k l }, RESP.BulkString v)) ∧
      (assocGet (assocSet d.list_map k l) k).isSome = true) := by
  refine ⟨?_, ?_, ?_, ?_, ?_⟩
  · intro d req t d' r k h hk
    cases req with
    | SimpleString s => exact handleArray_list_mono d [RESP.SimpleString s] t d' r k h hk
    | Error kind msg => exact handleArray_list_mono d [RESP.Error kind msg] t d' r k h hk
    | Integer i => exact handleArray_list_mono d [RESP.Integer i] t d' r k h hk
    | BulkString s => exact handleArray_list_mono d [RESP.BulkString s] t d' r k h hk
    | Array cmds => exact handleArray_list_mono d cmds t d' r k h hk
    | Null => exact handleArray_list_mono d [RESP.Null] t d' r k h hk
  · intro d k v t
    refine ⟨?_, ?_⟩
    · show handle3 d (RESP.BulkString (bytesOf "LPUSH")) (RESP.BulkString k)
        (RESP.BulkString v) = _
      rw [handle3, if_neg (by decide), if_pos rfl]
    · rw [l_push_list]
      simp [assocGet_assocSet]
  · intro d k v t
    refine ⟨?_, ?_⟩
    · show handle3 d (RESP.BulkString (bytesOf "RPUSH")) (RESP.BulkString k)
        (RESP.BulkString v) = _
      rw [handle3, if_neg (by decide), if_neg (by decide), if_pos rfl]
    · rw [r_push_list]
      simp [assocGet_assocSet]
  · intro d k t hget
    refine ⟨?_, ?_⟩
    · show handle2 d (RESP.BulkString (bytesOf "LPOP")) (RESP.BulkString k) t = _
      rw [handle2, if_neg (by decide), if_neg (by decide), if_pos rfl]
      simp [RedisData.l_pop, hget]
    · show handle2 d (RESP.BulkString (bytesOf "RPOP")) (RESP.BulkString k) t = _
      rw [handle2, if_neg (by decide), if_neg (by decide), if_neg (by decide), if_pos rfl]
      simp [RedisData.r_pop, hget]
  · intro d k v l t hget
    refine ⟨?_, ?_⟩
    · show handle2 d (RESP.BulkString (bytesOf "LPOP")) (RESP.BulkString k) t = _
      rw [handle2, if_neg (by decide), if_neg (by decide), if_pos rfl]
      simp [RedisData.l_pop, hget]
    · simp [assocGet_assocSet]

/-- Witness for C10: popping the single element of list "L" keeps the key mapped (to
the empty list), after which LPOP replies Null with the state unchanged; and a SET
on an unrelated key preserves membership of "L". -/
theorem c10_list_membership_witness :
    (assocGet ([(bytesOf "L", [bytesOf "a"])] : List (Bytes × List Bytes)) (bytesOf "L")
        = some [bytesOf "a"] ∧
      assocGet ([(bytesOf "L", [])] : List (Bytes × List Bytes)) (bytesOf "L")
        = some [] ∧
      handle_request ⟨[], [(bytesOf "L", [])], [], 0⟩
          (RESP.Array [RESP.BulkString (bytesOf "SET"), RESP.BulkString (bytesOf "x"),
            RESP.BulkString (bytesOf "1")]) 0
        = some (⟨[(bytesOf "x", bytesOf "1")], [(bytesOf "L", [])], [], 0⟩, okResp) ∧
      (assocGet ([(bytesOf "L", [])] : List (Bytes × List Bytes)) (bytesOf "L")).isSome
        = true) ∧
    (handle_request ⟨[], [(bytesOf "L", [bytesOf "a"])], [], 0⟩
        (RESP.Array [RESP.BulkString (bytesOf "LPOP"), RESP.BulkString (bytesOf "L")]) 0
      = some (⟨[], [(bytesOf "L", [])], [], 0⟩, RESP.BulkString (bytesOf "a"))) ∧
    (handle_request ⟨[], [(bytesOf "L", [])], [], 0⟩
        (RESP.Array [RESP.BulkString (bytesOf "LPOP"), RESP.BulkString (bytesOf "L")]) 0
      = some (⟨[], [(bytesOf "L", [])], [], 0⟩, RESP.Null)) ∧
    (assocGet ((⟨[(bytesOf "x", bytesOf "1")], [(bytesOf "L", [])], [], 0⟩
        : RedisData).list_map) (bytesOf "L")).isSome = true :=
  ⟨⟨rfl, rfl, rfl, rfl⟩,
   (c10_list_membership.2.2.2.2 ⟨[], [(bytesOf "L", [bytesOf "a"])], [], 0⟩ (bytesOf "L")
      (bytesOf "a") [] 0 rfl).1,
   (c10_list_membership.2.2.2.1 ⟨[], [(bytesOf "L", [])], [], 0⟩ (bytesOf "L") 0 rfl).1,
   c10_list_membership.1 ⟨[], [(bytesOf "L", [])], [], 0⟩
      (RESP.Array [RESP.BulkString (bytesOf "SET"), RESP.BulkString (bytesOf "x"),
        RESP.BulkString (bytesOf "1")]) 0
      ⟨[(bytesOf "x", bytesOf "1")], [(bytesOf "L", [])], [], 0⟩ okResp (bytesOf "L")
      rfl rfl⟩

end Rdis
